import Mathlib

/-!
# Verification of the authentication/authorization core of `go-backend-template`

Shallow embedding of the Go sources in `src/`:

* `microservices/shared/utils/encryption.go` — `Encrypt`, `Decrypt`, `HashEmail`
  (AES-256-CFB with a prepended random IV, base64 `StdEncoding`, SHA-256);
* `middleware/auth.go` and `microservices/user-service/middleware/auth.go` —
  `JWTAuthMiddleware`; the admin-service `AdminOnlyMiddleware`;
* the `handlers` package — `Register`, `Login`, `AdminRegister`, `AdminLogin`,
  and the lookup-key derivations used by `UpdateUserProfile`.

Go strings are byte sequences, so every Go `string` is embedded as a
`List Nat` of byte values; `ascii` turns an ASCII Lean literal into that
embedding.  The AES block cipher, SHA-256 and base64 are implemented
concretely (they are the library primitives the Go code calls); bcrypt and
the JWT HMAC signature are modelled from the spec as ideal primitives, as
noted on their definitions.  Randomness (IV, salt, generated ids) and the
clock are explicit inputs, and the document store is an explicit list of
user records.
-/

/-- Byte-level embedding of a Go string built from an ASCII Lean literal
(for ASCII text the UTF-8 bytes are exactly the character codes). -/
def ascii (s : String) : List Nat :=
  s.data.map Char.toNat

/-- All entries of a byte sequence are genuine bytes. -/
def allBytes (l : List Nat) : Prop :=
  ∀ x ∈ l, x < 256

instance (l : List Nat) : Decidable (allBytes l) := by
  unfold allBytes; infer_instance

/-! ## base64 `StdEncoding` (package `encoding/base64`)

`Encrypt` emits tokens with `base64.StdEncoding.EncodeToString`, `Decrypt`
and `HashEmail` use the same encoding.  Standard alphabet, `=` padding. -/

/-- The standard base64 alphabet as byte values. -/
def b64Alphabet : List Nat :=
  ascii "ABCDEFGHIJKLMNOPQRSTUVWXYZabcdefghijklmnopqrstuvwxyz0123456789+/"

/-- The byte encoding a six-bit group. -/
def sextetChar (n : Nat) : Nat :=
  b64Alphabet.getD n 0

/-- Index of a byte in the base64 alphabet. -/
def charSextetAux : List Nat → Nat → Nat → Option Nat
  | [], _, _ => none
  | a :: as, i, c => if a = c then some i else charSextetAux as (i + 1) c

/-- Decode one base64 character to its six-bit value (`none` off-alphabet). -/
def charSextet (c : Nat) : Option Nat :=
  charSextetAux b64Alphabet 0 c

/-- `base64.StdEncoding.EncodeToString` on a byte sequence. -/
def b64Encode : List Nat → List Nat
  | [] => []
  | [a] => [sextetChar (a / 4), sextetChar (a % 4 * 16), 61, 61]
  | [a, b] => [sextetChar (a / 4), sextetChar (a % 4 * 16 + b / 16),
      sextetChar (b % 16 * 4), 61]
  | a :: b :: c :: rest =>
      sextetChar (a / 4) :: sextetChar (a % 4 * 16 + b / 16) ::
      sextetChar (b % 16 * 4 + c / 64) :: sextetChar (c % 64) :: b64Encode rest

/-- Decoding of the final base64 quantum, which may carry `=` padding. -/
def b64DecodeLast (c1 c2 c3 c4 : Nat) : Option (List Nat) :=
  if c3 = 61 ∧ c4 = 61 then
    match charSextet c1, charSextet c2 with
    | some s1, some s2 => some [s1 * 4 + s2 / 16]
    | _, _ => none
  else if c4 = 61 then
    match charSextet c1, charSextet c2, charSextet c3 with
    | some s1, some s2, some s3 => some [s1 * 4 + s2 / 16, s2 % 16 * 16 + s3 / 4]
    | _, _, _ => none
  else
    match charSextet c1, charSextet c2, charSextet c3, charSextet c4 with
    | some s1, some s2, some s3, some s4 =>
        some [s1 * 4 + s2 / 16, s2 % 16 * 16 + s3 / 4, s3 % 4 * 64 + s4]
    | _, _, _, _ => none

/-- `base64.StdEncoding.DecodeString`: quanta of four characters, `=`
padding only in the final quantum, `none` on any ill-formed input. -/
def b64Decode : List Nat → Option (List Nat)
  | [] => some []
  | [c1, c2, c3, c4] => b64DecodeLast c1 c2 c3 c4
  | c1 :: c2 :: c3 :: c4 :: rest =>
      match charSextet c1, charSextet c2, charSextet c3, charSextet c4,
          b64Decode rest with
      | some s1, some s2, some s3, some s4, some bs =>
          some ([s1 * 4 + s2 / 16, s2 % 16 * 16 + s3 / 4, s3 % 4 * 64 + s4] ++ bs)
      | _, _, _, _, _ => none
  | _ => none

theorem charSextet_sextetChar {s : Nat} (h : s < 64) :
    charSextet (sextetChar s) = some s := by
  revert s h; decide

theorem sextetChar_ne_pad {s : Nat} (h : s < 64) : sextetChar s ≠ 61 := by
  revert s h; decide

theorem b64Encode_length (l : List Nat) :
    (b64Encode l).length = (l.length + 2) / 3 * 4 := by
  induction l using b64Encode.induct with
  | case1 => simp [b64Encode]
  | case2 a => simp [b64Encode]
  | case3 a b => simp [b64Encode]
  | case4 a b c rest ih =>
      simp only [b64Encode, List.length_cons, ih]
      omega

theorem b64DecodeLast_pad2 {s1 s2 : Nat} (h1 : s1 < 64) (h2 : s2 < 64) :
    b64DecodeLast (sextetChar s1) (sextetChar s2) 61 61 =
      some [s1 * 4 + s2 / 16] := by
  unfold b64DecodeLast
  rw [if_pos ⟨rfl, rfl⟩, charSextet_sextetChar h1, charSextet_sextetChar h2]

theorem b64DecodeLast_pad1 {s1 s2 s3 : Nat} (h1 : s1 < 64) (h2 : s2 < 64)
    (h3 : s3 < 64) :
    b64DecodeLast (sextetChar s1) (sextetChar s2) (sextetChar s3) 61 =
      some [s1 * 4 + s2 / 16, s2 % 16 * 16 + s3 / 4] := by
  unfold b64DecodeLast
  rw [if_neg (fun hc => sextetChar_ne_pad h3 hc.1), if_pos rfl,
    charSextet_sextetChar h1, charSextet_sextetChar h2, charSextet_sextetChar h3]

theorem b64DecodeLast_full {s1 s2 s3 s4 : Nat} (h1 : s1 < 64) (h2 : s2 < 64)
    (h3 : s3 < 64) (h4 : s4 < 64) :
    b64DecodeLast (sextetChar s1) (sextetChar s2) (sextetChar s3) (sextetChar s4) =
      some [s1 * 4 + s2 / 16, s2 % 16 * 16 + s3 / 4, s3 % 4 * 64 + s4] := by
  unfold b64DecodeLast
  rw [if_neg (fun hc => sextetChar_ne_pad h4 hc.2), if_neg (sextetChar_ne_pad h4),
    charSextet_sextetChar h1, charSextet_sextetChar h2, charSextet_sextetChar h3,
    charSextet_sextetChar h4]

theorem b64_roundtrip (l : List Nat) (h : allBytes l) :
    b64Decode (b64Encode l) = some l := by
  induction l using b64Encode.induct with
  | case1 => rfl
  | case2 a =>
      have ha : a < 256 := h a (by simp)
      have h1 : a / 4 < 64 := by omega
      have h2 : a % 4 * 16 < 64 := by omega
      show b64Decode [sextetChar (a / 4), sextetChar (a % 4 * 16), 61, 61] = _
      simp only [b64Decode, b64DecodeLast_pad2 h1 h2]
      have e1 : a / 4 * 4 + a % 4 * 16 / 16 = a := by omega
      rw [e1]
  | case3 a b =>
      have ha : a < 256 := h a (by simp)
      have hb : b < 256 := h b (by simp)
      have h1 : a / 4 < 64 := by omega
      have h2 : a % 4 * 16 + b / 16 < 64 := by omega
      have h3 : b % 16 * 4 < 64 := by omega
      show b64Decode [sextetChar (a / 4), sextetChar (a % 4 * 16 + b / 16),
        sextetChar (b % 16 * 4), 61] = _
      simp only [b64Decode, b64DecodeLast_pad1 h1 h2 h3]
      have e1 : a / 4 * 4 + (a % 4 * 16 + b / 16) / 16 = a := by omega
      have e2 : (a % 4 * 16 + b / 16) % 16 * 16 + b % 16 * 4 / 4 = b := by omega
      rw [e1, e2]
  | case4 a b c rest ih =>
      have ha : a < 256 := h a (by simp)
      have hb : b < 256 := h b (by simp)
      have hc : c < 256 := h c (by simp)
      have hrest : allBytes rest := fun x hx => h x (by simp [hx])
      have h1 : a / 4 < 64 := by omega
      have h2 : a % 4 * 16 + b / 16 < 64 := by omega
      have h3 : b % 16 * 4 + c / 64 < 64 := by omega
      have h4 : c % 64 < 64 := by omega
      have e1 : a / 4 * 4 + (a % 4 * 16 + b / 16) / 16 = a := by omega
      have e2 : (a % 4 * 16 + b / 16) % 16 * 16 + (b % 16 * 4 + c / 64) / 4 = b := by
        omega
      have e3 : (b % 16 * 4 + c / 64) % 4 * 64 + c % 64 = c := by omega
      cases hr : b64Encode rest with
      | nil =>
          have hre : rest = [] := by
            cases rest with
            | nil => rfl
            | cons x xs =>
                exfalso
                have hl := b64Encode_length (x :: xs)
                rw [hr] at hl
                simp at hl
                omega
          subst hre
          show b64Decode [sextetChar (a / 4), sextetChar (a % 4 * 16 + b / 16),
            sextetChar (b % 16 * 4 + c / 64), sextetChar (c % 64)] = _
          simp only [b64Decode, b64DecodeLast_full h1 h2 h3 h4]
          rw [e1, e2, e3]
      | cons y ys =>
          show b64Decode (sextetChar (a / 4) :: sextetChar (a % 4 * 16 + b / 16) ::
            sextetChar (b % 16 * 4 + c / 64) :: sextetChar (c % 64) ::
            b64Encode rest) = _
          rw [hr]
          show (match charSextet (sextetChar (a / 4)),
              charSextet (sextetChar (a % 4 * 16 + b / 16)),
              charSextet (sextetChar (b % 16 * 4 + c / 64)),
              charSextet (sextetChar (c % 64)), b64Decode (y :: ys) with
            | some s1, some s2, some s3, some s4, some bs =>
                some ([s1 * 4 + s2 / 16, s2 % 16 * 16 + s3 / 4,
                  s3 % 4 * 64 + s4] ++ bs)
            | _, _, _, _, _ => none) = some (a :: b :: c :: rest)
          rw [← hr, ih hrest, charSextet_sextetChar h1, charSextet_sextetChar h2,
            charSextet_sextetChar h3, charSextet_sextetChar h4]
          simp only [e1, e2, e3, List.cons_append, List.nil_append]

/-! ## CFB mode (package `crypto/cipher`, as used by `Encrypt`/`Decrypt`)

Go's `cipher.NewCFBEncrypter`/`NewCFBDecrypter` over a 16-byte block
cipher: the keystream block is the block-encryption of the feedback
register, the register is reloaded with each ciphertext block, starting
from the IV.  The block cipher is an explicit parameter `E` (the Go code
instantiates it with AES-256 via `aes.NewCipher`). -/


/-- Block-wise worker of the CFB encrypter, with a fuel bound (always
called with fuel at least the input length, so the fuel-exhaustion branch
is unreachable); `reg` is the feedback register (initially the IV). -/
def cfbEncGo (E : List Nat → List Nat) : Nat → List Nat → List Nat → List Nat
  | _, _, [] => []
  | 0, _, _ :: _ => []
  | fuel + 1, reg, p :: ps =>
      List.zipWith Nat.xor (List.take 16 (p :: ps)) (E reg) ++
        cfbEncGo E fuel (List.zipWith Nat.xor (List.take 16 (p :: ps)) (E reg))
          (List.drop 16 (p :: ps))

/-- One `XORKeyStream` call of a CFB *encrypter*. -/
def cfbEnc (E : List Nat → List Nat) (reg pt : List Nat) : List Nat :=
  cfbEncGo E pt.length reg pt

/-- Block-wise worker of the CFB decrypter: the register is reloaded with
the incoming ciphertext block. -/
def cfbDecGo (E : List Nat → List Nat) : Nat → List Nat → List Nat → List Nat
  | _, _, [] => []
  | 0, _, _ :: _ => []
  | fuel + 1, reg, c :: cs =>
      List.zipWith Nat.xor (List.take 16 (c :: cs)) (E reg) ++
        cfbDecGo E fuel (List.take 16 (c :: cs)) (List.drop 16 (c :: cs))

/-- One `XORKeyStream` call of a CFB *decrypter*. -/
def cfbDec (E : List Nat → List Nat) (reg ct : List Nat) : List Nat :=
  cfbDecGo E ct.length reg ct

theorem zipWith_xor_cancel :
    ∀ (t ks : List Nat), t.length ≤ ks.length →
      List.zipWith Nat.xor (List.zipWith Nat.xor t ks) ks = t
  | [], _, _ => by simp
  | x :: xs, k :: ks, h => by
      simp only [List.zipWith]
      have hx : Nat.xor (Nat.xor x k) k = x := Nat.xor_cancel_right k x
      rw [hx, zipWith_xor_cancel xs ks (by simpa using h)]
  | _ :: _, [], h => by simp at h

theorem allBytes_zipWith_xor :
    ∀ (t ks : List Nat), allBytes t → allBytes ks →
      allBytes (List.zipWith Nat.xor t ks)
  | [], _, _, _ => by simp [allBytes]
  | _ :: _, [], _, _ => by simp [allBytes]
  | x :: xs, k :: ks, ht, hks => by
      intro y hy
      simp only [List.zipWith, List.mem_cons] at hy
      rcases hy with rfl | hy
      · have hx : x < 256 := ht x (by simp)
        have hk : k < 256 := hks k (by simp)
        calc Nat.xor x k < 2 ^ 8 := Nat.xor_lt_two_pow hx hk
          _ = 256 := rfl
      · exact allBytes_zipWith_xor xs ks (fun a ha => ht a (by simp [ha]))
          (fun a ha => hks a (by simp [ha])) y hy

theorem cfbEncGo_length (E : List Nat → List Nat)
    (hE : ∀ b, (E b).length = 16) :
    ∀ (fuel : Nat) (reg pt : List Nat), pt.length ≤ fuel →
      (cfbEncGo E fuel reg pt).length = pt.length := by
  intro fuel
  induction fuel with
  | zero =>
      intro reg pt h
      have hnil : pt = [] := List.eq_nil_of_length_eq_zero (by omega)
      subst hnil
      rfl
  | succ f ih =>
      intro reg pt h
      cases pt with
      | nil => rfl
      | cons p ps =>
          rw [cfbEncGo, List.length_append,
            ih _ _ (by simp only [List.length_drop, List.length_cons] at *; omega)]
          simp only [List.length_zipWith, hE, List.length_take,
            List.length_drop, List.length_cons]
          omega

theorem cfbEnc_length (E : List Nat → List Nat) (hE : ∀ b, (E b).length = 16)
    (reg pt : List Nat) : (cfbEnc E reg pt).length = pt.length :=
  cfbEncGo_length E hE pt.length reg pt (Nat.le_refl _)

theorem cfbEncGo_bytes (E : List Nat → List Nat) (hEb : ∀ b, allBytes (E b)) :
    ∀ (fuel : Nat) (reg pt : List Nat), allBytes pt →
      allBytes (cfbEncGo E fuel reg pt) := by
  intro fuel
  induction fuel with
  | zero =>
      intro reg pt hpt
      cases pt with
      | nil => simp [cfbEncGo, allBytes]
      | cons p ps => simp [cfbEncGo, allBytes]
  | succ f ih =>
      intro reg pt hpt
      cases pt with
      | nil => simp [cfbEncGo, allBytes]
      | cons p ps =>
          rw [cfbEncGo]
          intro x hx
          rcases List.mem_append.mp hx with hx1 | hx2
          · exact allBytes_zipWith_xor _ _
              (fun a ha => hpt a (List.mem_of_mem_take ha)) (hEb reg) x hx1
          · exact ih _ _ (fun y hy => hpt y (List.mem_of_mem_drop hy)) x hx2

theorem cfbEnc_bytes (E : List Nat → List Nat) (hEb : ∀ b, allBytes (E b))
    (reg pt : List Nat) (hpt : allBytes pt) : allBytes (cfbEnc E reg pt) :=
  cfbEncGo_bytes E hEb pt.length reg pt hpt

theorem cfbDecGo_cfbEncGo (E : List Nat → List Nat)
    (hE : ∀ b, (E b).length = 16) :
    ∀ (fuel : Nat) (reg pt : List Nat), pt.length ≤ fuel →
      cfbDecGo E fuel reg (cfbEncGo E fuel reg pt) = pt := by
  intro fuel
  induction fuel with
  | zero =>
      intro reg pt h
      have hnil : pt = [] := List.eq_nil_of_length_eq_zero (by omega)
      subst hnil
      rfl
  | succ f ih =>
      intro reg pt h
      cases pt with
      | nil => rfl
      | cons p ps =>
          rw [cfbEncGo]
          have htlen : (List.take 16 (p :: ps)).length ≤ 16 := by
            simp [List.length_take]
          have hcb : (List.zipWith Nat.xor (List.take 16 (p :: ps)) (E reg)).length
              = (List.take 16 (p :: ps)).length := by
            simp only [List.length_zipWith, hE]
            omega
          have hcbne : List.zipWith Nat.xor (List.take 16 (p :: ps)) (E reg) ≠ [] := by
            intro hnil
            have h2 := hcb
            rw [hnil] at h2
            simp only [List.length_nil, List.length_take, List.length_cons] at h2
            omega
          obtain ⟨c, cs, hccs⟩ := List.exists_cons_of_ne_nil hcbne
          have hdroplen : (List.drop 16 (p :: ps)).length ≤ f := by
            simp only [List.length_drop, List.length_cons] at *
            omega
          have ihcall := ih
            (List.zipWith Nat.xor (List.take 16 (p :: ps)) (E reg))
            (List.drop 16 (p :: ps)) hdroplen
          rcases Nat.lt_or_ge (p :: ps).length 16 with hlt | hge
          · -- short final segment: the recursive call encrypts the empty tail
            have hdnil : List.drop 16 (p :: ps) = [] :=
              List.drop_eq_nil_of_le (by omega)
            have hcslen : (c :: cs).length ≤ 16 := by
              rw [← hccs, hcb]
              simp only [List.length_take]
              omega
            have hencnil : cfbEncGo E f
                (List.zipWith Nat.xor (List.take 16 (p :: ps)) (E reg))
                (List.drop 16 (p :: ps)) = [] := by
              rw [hdnil]
              cases f <;> rfl
            rw [hencnil, List.append_nil, hccs]
            show cfbDecGo E (f + 1) reg (c :: cs) = p :: ps
            rw [cfbDecGo, List.take_of_length_le hcslen,
              List.drop_eq_nil_of_le hcslen]
            have hdecnil : cfbDecGo E f (c :: cs) [] = [] := by
              cases f <;> rfl
            rw [hdecnil, List.append_nil, ← hccs,
              zipWith_xor_cancel _ _ (by rw [hE]; exact htlen),
              List.take_of_length_le (show (p :: ps).length ≤ 16 by omega)]
          · -- full first block
            have hcb16 : (List.zipWith Nat.xor (List.take 16 (p :: ps)) (E reg)).length
                = 16 := by
              rw [hcb]
              simp only [List.length_take]
              omega
            rw [hccs, List.cons_append]
            show cfbDecGo E (f + 1) reg (c :: (cs ++ cfbEncGo E f (c :: cs)
              (List.drop 16 (p :: ps)))) = p :: ps
            rw [cfbDecGo, ← List.cons_append, ← hccs,
              List.take_left' hcb16, List.drop_left' hcb16, ihcall,
              zipWith_xor_cancel _ _ (by rw [hE]; exact htlen),
              List.take_append_drop]

theorem cfbDec_cfbEnc (E : List Nat → List Nat) (hE : ∀ b, (E b).length = 16)
    (reg pt : List Nat) : cfbDec E reg (cfbEnc E reg pt) = pt := by
  unfold cfbDec cfbEnc
  rw [cfbEncGo_length E hE pt.length reg pt (Nat.le_refl _)]
  exact cfbDecGo_cfbEncGo E hE pt.length reg pt (Nat.le_refl _)

/-! ## `utils.Encrypt` / `utils.Decrypt` (`microservices/shared/utils/encryption.go`)

Faithful embedding of the two functions.  The external AES-256 block
cipher (`aes.NewCipher`) enters as the parameter `E : key → block → block`;
`aes.NewCipher` itself cannot fail here because the 32-byte length has
already been checked.  The random IV drawn from `crypto/rand` in the Go
code is an explicit argument, and Go's `(result, error)` pair is an
`Except` (the error branch of the Go code always returns the empty
string). -/

/-- `Encrypt(plainText, key)` with the fresh random `iv` made explicit:
key-length check, then `iv ++ CFB-encryption`, base64-encoded. -/
def Encrypt (E : List Nat → List Nat → List Nat)
    (plainText key iv : List Nat) : Except (List Nat) (List Nat) :=
  if key.length ≠ 32 then .error (ascii "encryption key must be 32 bytes")
  else .ok (b64Encode (iv ++ cfbEnc (E key) iv plainText))

/-- `Decrypt(encryptedText, key)`: key-length check, base64 decode,
minimum-length check, then CFB decryption with the leading block as IV. -/
def Decrypt (E : List Nat → List Nat → List Nat)
    (encryptedText key : List Nat) : Except (List Nat) (List Nat) :=
  if key.length ≠ 32 then .error (ascii "encryption key must be 32 bytes")
  else
    match b64Decode encryptedText with
    | none => .error (ascii "illegal base64 data")
    | some ct =>
        if ct.length < 16 then .error (ascii "ciphertext too short")
        else .ok (cfbDec (E key) (List.take 16 ct) (List.drop 16 ct))

theorem Decrypt_ok_iff (E : List Nat → List Nat → List Nat)
    (tok key : List Nat) :
    (∃ s, Decrypt E tok key = .ok s) ↔
      (key.length = 32 ∧ ∃ ct, b64Decode tok = some ct ∧ 16 ≤ ct.length) := by
  constructor
  · rintro ⟨s, hs⟩
    unfold Decrypt at hs
    split at hs
    · exact absurd hs (by simp)
    · split at hs
      · exact absurd hs (by simp)
      · split at hs
        · exact absurd hs (by simp)
        · rename_i hk ct hct hlen
          exact ⟨by omega, ct, hct, by omega⟩
  · rintro ⟨hk, ct, hct, hlen⟩
    refine ⟨cfbDec (E key) (List.take 16 ct) (List.drop 16 ct), ?_⟩
    unfold Decrypt
    rw [if_neg (by omega), hct]
    show (if ct.length < 16 then (Except.error (ascii "ciphertext too short") :
        Except (List Nat) (List Nat))
      else .ok (cfbDec (E key) (List.take 16 ct) (List.drop 16 ct))) = _
    rw [if_neg (by omega)]

theorem Decrypt_Encrypt (E : List Nat → List Nat → List Nat)
    (key iv pt : List Nat) (hkey : key.length = 32) (hiv : iv.length = 16)
    (hE : ∀ b, (E key b).length = 16) (hEb : ∀ b, allBytes (E key b))
    (hivb : allBytes iv) (hptb : allBytes pt) (tok : List Nat)
    (henc : Encrypt E pt key iv = .ok tok) :
    Decrypt E tok key = .ok pt := by
  unfold Encrypt at henc
  rw [if_neg (by omega)] at henc
  cases henc
  unfold Decrypt
  rw [if_neg (by omega)]
  have hbytes : allBytes (iv ++ cfbEnc (E key) iv pt) := by
    intro x hx
    rcases List.mem_append.mp hx with h1 | h2
    · exact hivb x h1
    · exact cfbEnc_bytes (E key) hEb iv pt hptb x h2
  rw [b64_roundtrip _ hbytes]
  show (if (iv ++ cfbEnc (E key) iv pt).length < 16 then
      (Except.error (ascii "ciphertext too short") : Except (List Nat) (List Nat))
    else .ok (cfbDec (E key) (List.take 16 (iv ++ cfbEnc (E key) iv pt))
      (List.drop 16 (iv ++ cfbEnc (E key) iv pt)))) = _
  have hlen : (iv ++ cfbEnc (E key) iv pt).length = 16 + pt.length := by
    simp [List.length_append, cfbEnc_length (E key) hE, hiv]
  rw [if_neg (by omega), List.take_left' hiv, List.drop_left' hiv,
    cfbDec_cfbEnc (E key) hE]

/-! ## AES-256 (package `crypto/aes`)

`aes.NewCipher([]byte(key))` with a 32-byte key yields the AES-256 block
encryption that CFB mode consumes.  The forward direction (the only one
CFB uses) is implemented here from FIPS-197: the 16-byte state is kept in
the column-major byte order of the Go implementation.  Inputs are
normalised to 16-byte states (`toBlock`), so the function is total; on
genuine 16-byte blocks and 32-byte keys this is exactly AES-256. -/

def sbox : List Nat := [
  99, 124, 119, 123, 242, 107, 111, 197, 48, 1, 103, 43, 254, 215, 171, 118,
  202, 130, 201, 125, 250, 89, 71, 240, 173, 212, 162, 175, 156, 164, 114, 192,
  183, 253, 147, 38, 54, 63, 247, 204, 52, 165, 229, 241, 113, 216, 49, 21,
  4, 199, 35, 195, 24, 150, 5, 154, 7, 18, 128, 226, 235, 39, 178, 117,
  9, 131, 44, 26, 27, 110, 90, 160, 82, 59, 214, 179, 41, 227, 47, 132,
  83, 209, 0, 237, 32, 252, 177, 91, 106, 203, 190, 57, 74, 76, 88, 207,
  208, 239, 170, 251, 67, 77, 51, 133, 69, 249, 2, 127, 80, 60, 159, 168,
  81, 163, 64, 143, 146, 157, 56, 245, 188, 182, 218, 33, 16, 255, 243, 210,
  205, 12, 19, 236, 95, 151, 68, 23, 196, 167, 126, 61, 100, 93, 25, 115,
  96, 129, 79, 220, 34, 42, 144, 136, 70, 238, 184, 20, 222, 94, 11, 219,
  224, 50, 58, 10, 73, 6, 36, 92, 194, 211, 172, 98, 145, 149, 228, 121,
  231, 200, 55, 109, 141, 213, 78, 169, 108, 86, 244, 234, 101, 122, 174, 8,
  186, 120, 37, 46, 28, 166, 180, 198, 232, 221, 116, 31, 75, 189, 139, 138,
  112, 62, 181, 102, 72, 3, 246, 14, 97, 53, 87, 185, 134, 193, 29, 158,
  225, 248, 152, 17, 105, 217, 142, 148, 155, 30, 135, 233, 206, 85, 40, 223,
  140, 161, 137, 13, 191, 230, 66, 104, 65, 153, 45, 15, 176, 84, 187, 22]

/-- Round constants of the key schedule. -/
def rcon : List Nat := [1, 2, 4, 8, 16, 32, 64, 128, 27, 54]

/-- Multiplication by x in GF(2^8) modulo x^8+x^4+x^3+x+1. -/
def xtime (a : Nat) : Nat :=
  Nat.xor (a * 2) (if 128 <= a then 27 else 0) % 256

/-- Multiplication by x+1 in GF(2^8). -/
def mul3 (a : Nat) : Nat :=
  Nat.xor (xtime a) a

/-- SubBytes / SubWord: byte-wise S-box substitution. -/
def subBytes (st : List Nat) : List Nat :=
  st.map (fun b => sbox.getD b 0)

/-- RotWord of the key schedule (already 4 bytes long in every use). -/
def rotWord : List Nat -> List Nat
  | a :: b :: c :: d :: _ => [b, c, d, a]
  | _ => [0, 0, 0, 0]

/-- ShiftRows on the column-major 16-byte state. -/
def shiftRows (st : List Nat) : List Nat :=
  [st.getD 0 0, st.getD 5 0, st.getD 10 0, st.getD 15 0,
   st.getD 4 0, st.getD 9 0, st.getD 14 0, st.getD 3 0,
   st.getD 8 0, st.getD 13 0, st.getD 2 0, st.getD 7 0,
   st.getD 12 0, st.getD 1 0, st.getD 6 0, st.getD 11 0]

/-- MixColumns on one column. -/
def mixColumn (a0 a1 a2 a3 : Nat) : List Nat :=
  [Nat.xor (Nat.xor (Nat.xor (xtime a0) (mul3 a1)) a2) a3,
   Nat.xor (Nat.xor (Nat.xor a0 (xtime a1)) (mul3 a2)) a3,
   Nat.xor (Nat.xor (Nat.xor a0 a1) (xtime a2)) (mul3 a3),
   Nat.xor (Nat.xor (Nat.xor (mul3 a0) a1) a2) (xtime a3)]

/-- MixColumns on the 16-byte state. -/
def mixColumns (st : List Nat) : List Nat :=
  mixColumn (st.getD 0 0) (st.getD 1 0) (st.getD 2 0) (st.getD 3 0) ++
  mixColumn (st.getD 4 0) (st.getD 5 0) (st.getD 6 0) (st.getD 7 0) ++
  mixColumn (st.getD 8 0) (st.getD 9 0) (st.getD 10 0) (st.getD 11 0) ++
  mixColumn (st.getD 12 0) (st.getD 13 0) (st.getD 14 0) (st.getD 15 0)

/-- AddRoundKey. -/
def addRoundKey (st rk : List Nat) : List Nat :=
  List.zipWith Nat.xor st rk

/-- Normalise an input to a 16-byte state (identity on real blocks). -/
def toBlock (b : List Nat) : List Nat :=
  (b.map (fun x => x % 256)).take 16 ++ List.replicate (16 - b.length) 0

/-- The first 8 words of the AES-256 key schedule. -/
def initWords (key : List Nat) : List (List Nat) :=
  (List.range 8).map (fun i =>
    [(key.map (fun x => x % 256)).getD (4 * i) 0,
     (key.map (fun x => x % 256)).getD (4 * i + 1) 0,
     (key.map (fun x => x % 256)).getD (4 * i + 2) 0,
     (key.map (fun x => x % 256)).getD (4 * i + 3) 0])

/-- The next word of the key schedule, from the words produced so far. -/
def nextWord (ws : List (List Nat)) : List Nat :=
  List.zipWith Nat.xor (ws.getD (ws.length - 8) [0, 0, 0, 0])
    (if ws.length % 8 = 0 then
      List.zipWith Nat.xor (subBytes (rotWord (ws.getD (ws.length - 1) [0, 0, 0, 0])))
        [rcon.getD (ws.length / 8 - 1) 0, 0, 0, 0]
    else if ws.length % 8 = 4 then
      subBytes (ws.getD (ws.length - 1) [0, 0, 0, 0])
    else
      ws.getD (ws.length - 1) [0, 0, 0, 0])

/-- Iterate the key schedule. -/
def expandWords : Nat -> List (List Nat) -> List (List Nat)
  | 0, ws => ws
  | n + 1, ws => expandWords n (ws ++ [nextWord ws])

/-- All 60 words of the AES-256 key schedule. -/
def aesExpandKey (key : List Nat) : List (List Nat) :=
  expandWords 52 (initWords key)

/-- Round key `r` as 16 bytes. -/
def roundKey (ws : List (List Nat)) (r : Nat) : List Nat :=
  ws.getD (4 * r) [0, 0, 0, 0] ++ ws.getD (4 * r + 1) [0, 0, 0, 0] ++
  ws.getD (4 * r + 2) [0, 0, 0, 0] ++ ws.getD (4 * r + 3) [0, 0, 0, 0]

/-- One middle round. -/
def aesRound (ws : List (List Nat)) (st : List Nat) (r : Nat) : List Nat :=
  addRoundKey (mixColumns (shiftRows (subBytes st))) (roundKey ws r)

/-- AES-256 block encryption (FIPS-197, 14 rounds). -/
def aesBlock (key block : List Nat) : List Nat :=
  addRoundKey
    (shiftRows (subBytes
      (List.foldl (aesRound (aesExpandKey key))
        (addRoundKey (toBlock block) (roundKey (aesExpandKey key) 0))
        (List.range' 1 13))))
    (roundKey (aesExpandKey key) 14)

theorem getD_lt_of_allBytes :
    ∀ (l : List Nat), allBytes l → ∀ i, l.getD i 0 < 256
  | [], _, i => by simp [List.getD]
  | x :: xs, h, 0 => h x (by simp)
  | x :: xs, h, i + 1 =>
      getD_lt_of_allBytes xs (fun a ha => h a (by simp [ha])) i

set_option maxRecDepth 4096 in
theorem sbox_allBytes : allBytes sbox := by decide

theorem sbox_getD_lt (i : Nat) : sbox.getD i 0 < 256 :=
  getD_lt_of_allBytes sbox sbox_allBytes i

theorem xtime_lt (a : Nat) : xtime a < 256 := by
  unfold xtime
  omega

theorem mul3_lt {a : Nat} (h : a < 256) : mul3 a < 256 := by
  unfold mul3
  calc Nat.xor (xtime a) a < 2 ^ 8 := Nat.xor_lt_two_pow (xtime_lt a) h
    _ = 256 := rfl

theorem subBytes_bytes (st : List Nat) : allBytes (subBytes st) := by
  intro x hx
  simp only [subBytes, List.mem_map] at hx
  obtain ⟨b, _, rfl⟩ := hx
  exact sbox_getD_lt b

theorem subBytes_length (st : List Nat) : (subBytes st).length = st.length := by
  simp [subBytes]

theorem shiftRows_bytes (st : List Nat) (h : allBytes st) :
    allBytes (shiftRows st) := by
  intro x hx
  have hg := getD_lt_of_allBytes st h
  simp only [shiftRows, List.mem_cons, List.not_mem_nil, or_false] at hx
  rcases hx with rfl | rfl | rfl | rfl | rfl | rfl | rfl | rfl | rfl | rfl |
    rfl | rfl | rfl | rfl | rfl | rfl <;> apply hg

theorem shiftRows_length (st : List Nat) : (shiftRows st).length = 16 := by
  simp [shiftRows]

theorem mixColumn_bytes {a0 a1 a2 a3 : Nat} (h0 : a0 < 256) (h1 : a1 < 256)
    (h2 : a2 < 256) (h3 : a3 < 256) : allBytes (mixColumn a0 a1 a2 a3) := by
  have hx : ∀ u v : Nat, u < 256 → v < 256 → Nat.xor u v < 256 := by
    intro u v hu hv
    calc Nat.xor u v < 2 ^ 8 := Nat.xor_lt_two_pow hu hv
      _ = 256 := rfl
  intro x hxm
  simp only [mixColumn, List.mem_cons, List.not_mem_nil, or_false] at hxm
  rcases hxm with rfl | rfl | rfl | rfl
  · exact hx _ _ (hx _ _ (hx _ _ (xtime_lt a0) (mul3_lt h1)) h2) h3
  · exact hx _ _ (hx _ _ (hx _ _ h0 (xtime_lt a1)) (mul3_lt h2)) h3
  · exact hx _ _ (hx _ _ (hx _ _ h0 h1) (xtime_lt a2)) (mul3_lt h3)
  · exact hx _ _ (hx _ _ (hx _ _ (mul3_lt h0) h1) h2) (xtime_lt a3)

theorem mixColumns_bytes (st : List Nat) (h : allBytes st) :
    allBytes (mixColumns st) := by
  have hg := getD_lt_of_allBytes st h
  intro x hx
  simp only [mixColumns, List.mem_append] at hx
  rcases hx with ((hx | hx) | hx) | hx <;>
    exact mixColumn_bytes (hg _) (hg _) (hg _) (hg _) x hx

theorem mixColumns_length (st : List Nat) : (mixColumns st).length = 16 := by
  simp [mixColumns, mixColumn]

/-- Well-formedness of a 4-byte key-schedule word. -/
def wordWF (w : List Nat) : Prop :=
  w.length = 4 ∧ allBytes w

theorem wordWF_getD :
    ∀ (ws : List (List Nat)), (∀ w ∈ ws, wordWF w) → ∀ (i : Nat),
      wordWF (ws.getD i [0, 0, 0, 0])
  | [], _, i => by
      rw [List.getD_eq_default _ _ (Nat.zero_le i)]
      exact ⟨rfl, by decide⟩
  | w :: ws, h, 0 => h w (by simp)
  | w :: ws, h, i + 1 => wordWF_getD ws (fun a ha => h a (by simp [ha])) i

theorem wordWF_zipWith_xor {w1 w2 : List Nat} (h1 : wordWF w1) (h2 : wordWF w2) :
    wordWF (List.zipWith Nat.xor w1 w2) := by
  refine ⟨?_, allBytes_zipWith_xor _ _ h1.2 h2.2⟩
  simp [List.length_zipWith, h1.1, h2.1]

theorem wordWF_subBytes {w : List Nat} (h : w.length = 4) :
    wordWF (subBytes w) := by
  exact ⟨by simp [subBytes, h], subBytes_bytes w⟩

theorem wordWF_rotWord (w : List Nat) (h : wordWF w) : wordWF (rotWord w) := by
  rcases h with ⟨hl, hb⟩
  match w, hl with
  | [a, b, c, d], _ =>
      refine ⟨rfl, ?_⟩
      intro x hx
      simp only [rotWord, List.mem_cons, List.not_mem_nil, or_false] at hx
      rcases hx with rfl | rfl | rfl | rfl <;> exact hb _ (by simp)

theorem nextWord_wf (ws : List (List Nat)) (h : ∀ w ∈ ws, wordWF w) :
    wordWF (nextWord ws) := by
  have h8 := wordWF_getD ws h (ws.length - 8)
  have h1 := wordWF_getD ws h (ws.length - 1)
  unfold nextWord
  split
  · refine wordWF_zipWith_xor h8 (wordWF_zipWith_xor ?_ ?_)
    · exact wordWF_subBytes (wordWF_rotWord _ h1).1
    · refine ⟨rfl, ?_⟩
      intro x hx
      simp only [List.mem_cons, List.not_mem_nil, or_false] at hx
      rcases hx with rfl | rfl | rfl | rfl
      · have : allBytes rcon := by decide
        exact getD_lt_of_allBytes rcon this _
      all_goals omega
  · split
    · exact wordWF_zipWith_xor h8 (wordWF_subBytes h1.1)
    · exact wordWF_zipWith_xor h8 h1

theorem expandWords_wf :
    ∀ (n : Nat) (ws : List (List Nat)), (∀ w ∈ ws, wordWF w) →
      ∀ w ∈ expandWords n ws, wordWF w
  | 0, ws, h => h
  | n + 1, ws, h => by
      apply expandWords_wf n
      intro w hw
      rcases List.mem_append.mp hw with hw1 | hw2
      · exact h w hw1
      · simp only [List.mem_singleton] at hw2
        subst hw2
        exact nextWord_wf ws h

theorem initWords_wf (key : List Nat) : ∀ w ∈ initWords key, wordWF w := by
  intro w hw
  simp only [initWords, List.mem_map, List.mem_range] at hw
  obtain ⟨i, _, rfl⟩ := hw
  have hmap : allBytes (key.map (fun x => x % 256)) := by
    intro x hx
    simp only [List.mem_map] at hx
    obtain ⟨y, _, rfl⟩ := hx
    omega
  have hg := getD_lt_of_allBytes _ hmap
  refine ⟨rfl, ?_⟩
  intro x hx
  simp only [List.mem_cons, List.not_mem_nil, or_false] at hx
  rcases hx with rfl | rfl | rfl | rfl <;> apply hg

theorem aesExpandKey_wf (key : List Nat) : ∀ w ∈ aesExpandKey key, wordWF w :=
  expandWords_wf 52 _ (initWords_wf key)

theorem roundKey_wf (ws : List (List Nat)) (h : ∀ w ∈ ws, wordWF w) (r : Nat) :
    (roundKey ws r).length = 16 ∧ allBytes (roundKey ws r) := by
  have w0 := wordWF_getD ws h (4 * r)
  have w1 := wordWF_getD ws h (4 * r + 1)
  have w2 := wordWF_getD ws h (4 * r + 2)
  have w3 := wordWF_getD ws h (4 * r + 3)
  constructor
  · simp only [roundKey, List.length_append, w0.1, w1.1, w2.1, w3.1]
  · intro x hx
    simp only [roundKey, List.mem_append] at hx
    rcases hx with ((hx | hx) | hx) | hx
    · exact w0.2 x hx
    · exact w1.2 x hx
    · exact w2.2 x hx
    · exact w3.2 x hx

/-- State well-formedness: 16 bytes. -/
def stateWF (st : List Nat) : Prop :=
  st.length = 16 ∧ allBytes st

theorem toBlock_wf (b : List Nat) : stateWF (toBlock b) := by
  constructor
  · simp only [toBlock, List.length_append, List.length_take, List.length_map,
      List.length_replicate]
    omega
  · intro x hx
    simp only [toBlock, List.mem_append] at hx
    rcases hx with hx | hx
    · have := List.mem_of_mem_take hx
      simp only [List.mem_map] at this
      obtain ⟨y, _, rfl⟩ := this
      omega
    · rw [List.eq_of_mem_replicate hx]
      omega

theorem addRoundKey_wf {st rk : List Nat} (hst : stateWF st)
    (hrk : rk.length = 16 ∧ allBytes rk) : stateWF (addRoundKey st rk) := by
  refine ⟨?_, allBytes_zipWith_xor _ _ hst.2 hrk.2⟩
  simp [addRoundKey, List.length_zipWith, hst.1, hrk.1]

theorem aesRound_wf (ws : List (List Nat)) (hws : ∀ w ∈ ws, wordWF w)
    (st : List Nat) (h : stateWF st) (r : Nat) : stateWF (aesRound ws st r) := by
  apply addRoundKey_wf
  · refine ⟨mixColumns_length _, mixColumns_bytes _ ?_⟩
    exact shiftRows_bytes _ (subBytes_bytes st)
  · exact roundKey_wf ws hws r

theorem foldl_stateWF (ws : List (List Nat)) (hws : ∀ w ∈ ws, wordWF w) :
    ∀ (l : List Nat) (st : List Nat), stateWF st →
      stateWF (List.foldl (aesRound ws) st l)
  | [], st, h => h
  | r :: rs, st, h =>
      foldl_stateWF ws hws rs _ (aesRound_wf ws hws st h r)

theorem aesBlock_wf (key block : List Nat) : stateWF (aesBlock key block) := by
  have hws := aesExpandKey_wf key
  apply addRoundKey_wf
  · exact ⟨shiftRows_length _, shiftRows_bytes _ (subBytes_bytes _)⟩
  · exact roundKey_wf _ hws 14

theorem aesBlock_length (key block : List Nat) :
    (aesBlock key block).length = 16 :=
  (aesBlock_wf key block).1

theorem aesBlock_bytes (key block : List Nat) : allBytes (aesBlock key block) :=
  (aesBlock_wf key block).2

/-! ## SHA-256 (package `crypto/sha256`)

`utils.HashEmail` computes `sha256.Sum256([]byte(email))` and base64-encodes
the 32-byte digest.  FIPS 180-4 SHA-256 over byte sequences, words as
naturals reduced modulo 2^32. -/

/-- Round constants. -/
def shaK : List Nat := [
  1116352408, 1899447441, 3049323471, 3921009573, 961987163, 1508970993,
  2453635748, 2870763221, 3624381080, 310598401, 607225278, 1426881987,
  1925078388, 2162078206, 2614888103, 3248222580, 3835390401, 4022224774,
  264347078, 604807628, 770255983, 1249150122, 1555081692, 1996064986,
  2554220882, 2821834349, 2952996808, 3210313671, 3336571891, 3584528711,
  113926993, 338241895, 666307205, 773529912, 1294757372, 1396182291,
  1695183700, 1986661051, 2177026350, 2456956037, 2730485921, 2820302411,
  3259730800, 3345764771, 3516065817, 3600352804, 4094571909, 275423344,
  430227734, 506948616, 659060556, 883997877, 958139571, 1322822218,
  1537002063, 1747873779, 1955562222, 2024104815, 2227730452, 2361852424,
  2428436474, 2756734187, 3204031479, 3329325298]

/-- Right rotation of a 32-bit word. -/
def rotr32 (x n : Nat) : Nat :=
  Nat.lor (x >>> n) (x <<< (32 - n)) % 2 ^ 32

/-- Big-endian 8-byte encoding. -/
def be64 (n : Nat) : List Nat :=
  [n >>> 56 % 256, n >>> 48 % 256, n >>> 40 % 256, n >>> 32 % 256,
   n >>> 24 % 256, n >>> 16 % 256, n >>> 8 % 256, n % 256]

/-- Big-endian 4-byte encoding of a 32-bit word. -/
def be32 (n : Nat) : List Nat :=
  [n >>> 24 % 256, n >>> 16 % 256, n >>> 8 % 256, n % 256]

/-- SHA-256 message padding. -/
def shaPad (msg : List Nat) : List Nat :=
  msg ++ [128] ++ List.replicate ((119 - msg.length % 64) % 64) 0 ++
    be64 (8 * msg.length)

/-- Big-endian 32-bit words from bytes. -/
def toWords : List Nat → List Nat
  | b0 :: b1 :: b2 :: b3 :: rest =>
      (((b0 * 256 + b1) * 256 + b2) * 256 + b3) :: toWords rest
  | _ => []

/-- Extend 16 schedule words to 64. -/
def extendWords : Nat → List Nat → List Nat
  | 0, ws => ws
  | n + 1, ws =>
      extendWords n (ws ++ [(sigma1 (ws.getD (ws.length - 2) 0) +
        ws.getD (ws.length - 7) 0 + sigma0 (ws.getD (ws.length - 15) 0) +
        ws.getD (ws.length - 16) 0) % 2 ^ 32])
where
  sigma0 (x : Nat) : Nat :=
    Nat.xor (Nat.xor (rotr32 x 7) (rotr32 x 18)) (x >>> 3)
  sigma1 (x : Nat) : Nat :=
    Nat.xor (Nat.xor (rotr32 x 17) (rotr32 x 19)) (x >>> 10)

/-- The eight working variables. -/
structure ShaState where
  a : Nat
  b : Nat
  c : Nat
  d : Nat
  e : Nat
  f : Nat
  g : Nat
  h : Nat

/-- One compression round. -/
def shaRound (ws : List Nat) (st : ShaState) (i : Nat) : ShaState :=
  let s1 := Nat.xor (Nat.xor (rotr32 st.e 6) (rotr32 st.e 11)) (rotr32 st.e 25)
  let ch := Nat.xor (Nat.land st.e st.f) (Nat.land ((2 ^ 32 - 1) - st.e) st.g)
  let t1 := (st.h + s1 + ch + shaK.getD i 0 + ws.getD i 0) % 2 ^ 32
  let s0 := Nat.xor (Nat.xor (rotr32 st.a 2) (rotr32 st.a 13)) (rotr32 st.a 22)
  let mj := Nat.xor (Nat.xor (Nat.land st.a st.b) (Nat.land st.a st.c))
    (Nat.land st.b st.c)
  let t2 := (s0 + mj) % 2 ^ 32
  ⟨(t1 + t2) % 2 ^ 32, st.a, st.b, st.c, (st.d + t1) % 2 ^ 32, st.e, st.f, st.g⟩

/-- Compress one 64-byte block into the running hash values. -/
def shaBlock (hv : List Nat) (block : List Nat) : List Nat :=
  let ws := extendWords 48 (toWords block)
  let st0 : ShaState := ⟨hv.getD 0 0, hv.getD 1 0, hv.getD 2 0, hv.getD 3 0,
    hv.getD 4 0, hv.getD 5 0, hv.getD 6 0, hv.getD 7 0⟩
  let st := List.foldl (shaRound ws) st0 (List.range 64)
  [(hv.getD 0 0 + st.a) % 2 ^ 32, (hv.getD 1 0 + st.b) % 2 ^ 32,
   (hv.getD 2 0 + st.c) % 2 ^ 32, (hv.getD 3 0 + st.d) % 2 ^ 32,
   (hv.getD 4 0 + st.e) % 2 ^ 32, (hv.getD 5 0 + st.f) % 2 ^ 32,
   (hv.getD 6 0 + st.g) % 2 ^ 32, (hv.getD 7 0 + st.h) % 2 ^ 32]

/-- Fuel-bounded fold of the compression function over the 64-byte blocks
(always called with fuel at least the input length). -/
def shaBlocksGo : Nat → List Nat → List Nat → List Nat
  | _, hv, [] => hv
  | 0, hv, _ :: _ => hv
  | fuel + 1, hv, b :: bs =>
      shaBlocksGo fuel (shaBlock hv (List.take 64 (b :: bs)))
        (List.drop 64 (b :: bs))

/-- Fold the compression function over the 64-byte blocks. -/
def shaBlocks (hv bs : List Nat) : List Nat :=
  shaBlocksGo bs.length hv bs

/-- `sha256.Sum256` of a byte sequence: the 32-byte digest. -/
def sha256 (msg : List Nat) : List Nat :=
  (shaBlocks [1779033703, 3144134277, 1013904242, 2773480762, 1359893119, 2600822924, 528734635, 1541459225] (shaPad msg)).flatMap be32

/-- `utils.HashEmail`: base64 of the SHA-256 digest of the email. -/
def HashEmail (email : List Nat) : List Nat :=
  b64Encode (sha256 email)

/-! ## bcrypt and the JWT codec

bcrypt (`golang.org/x/crypto/bcrypt`) and the JWT HMAC signature
(`github.com/golang-jwt/jwt/v4`) are external primitives whose internals
the repository never touches; they are modelled from the spec as ideal
primitives. -/

/-- Modelled from the spec (§4.2 Credential Hasher): a bcrypt hash token,
an adaptive salted one-way hash; modelled as an ideal hash that the
comparison function can check against a password.  The salt makes two
hashes of the same password differ. -/
structure BcryptHash where
  salt : Nat
  pw : List Nat
deriving DecidableEq

/-- `bcrypt.GenerateFromPassword` with the random salt explicit (the
error branch of the Go function is unreachable for the fixed default
cost). -/
def bcryptGenerate (password : List Nat) (salt : Nat) : BcryptHash :=
  ⟨salt, password⟩

/-- `bcrypt.CompareHashAndPassword`: `true` iff the password matches. -/
def bcryptCompare (hash : BcryptHash) (password : List Nat) : Bool :=
  hash.pw == password

/-- The claims carried by an issued session token (`jwt.MapClaims` with
keys `userID`, `email`, `role`, `exp`); `userID` is the opaque document
identity. -/
structure JwtClaims where
  userID : Nat
  email : List Nat
  role : List Nat
  exp : Int
deriving DecidableEq

/-- Modelled from the spec (§4.3 Session Token Codec): the HMAC-SHA256
signature of the external JWT library, modelled as an ideal MAC — the
signature value determines the signing secret and the signed claims. -/
def signHS256 (secret : List Nat) (c : JwtClaims) : List Nat × JwtClaims :=
  (secret, c)

/-- A signed compact token: claims plus signature. -/
structure SignedToken where
  claims : JwtClaims
  sig : List Nat × JwtClaims
deriving DecidableEq

/-- `jwt.NewWithClaims(SigningMethodHS256, ...).SignedString(secret)` as
issued by `Login`/`AdminLogin`: expiration 24 hours (86400 seconds) from
`now` (`time.Now().Add(time.Hour * 24).Unix()`). -/
def issueToken (userID : Nat) (email role secret : List Nat) (now : Int) :
    SignedToken :=
  ⟨⟨userID, email, role, now + 86400⟩,
    signHS256 secret ⟨userID, email, role, now + 86400⟩⟩

/-- Modelled from the spec (§4.3): `jwt.Parse` with an HMAC key —
a token is valid iff its signature was produced with the supplied secret
over its claims and its expiration lies strictly in the future. -/
def verifyToken (tok : SignedToken) (secret : List Nat) (now : Int) :
    Option JwtClaims :=
  if tok.sig = signHS256 secret tok.claims ∧ now < tok.claims.exp then
    some tok.claims
  else none

/-! ## The user store and the auth handlers (`handlers` package)

`models.User` as used by the handlers (bson fields `_id`, `email_hash`,
`email`, `password`, `role`, `created_at`, `updated_at`); the `users`
collection is an explicit list, `FindOne` on an `email_hash` filter is a
first-match search, `InsertOne` appends.  Randomness (generated ObjectID,
bcrypt salt, encryption IV) and the clock are explicit arguments.  The
fault branches of the Mongo driver are not modelled (the store is
fault-free), so the handler outcomes below are the conflict /
unauthorized / forbidden / crypto-error / success outcomes of the Go
code. -/

/-- A stored user record. -/
structure User where
  id : Nat
  emailHash : List Nat
  email : List Nat
  password : BcryptHash
  role : List Nat
  createdAt : Int
  updatedAt : Int
deriving DecidableEq

/-- The `users` collection. -/
abbrev Store := List User

/-- `collection.FindOne(ctx, bson.M ... email_hash ...)`. -/
def findByEmailHash (db : Store) (k : List Nat) : Option User :=
  List.find? (fun u => u.emailHash == k) db

/-- Request body of `/register` (optional `role` decodes to the empty
string when absent). -/
structure RegisterRequest where
  email : List Nat
  password : List Nat
  role : List Nat

/-- Request body of `/login`, `/admin/register` and `/admin/login`. -/
structure LoginRequest where
  email : List Nat
  password : List Nat

/-- Outcome of a registration handler. -/
inductive RegisterResult where
  | conflict
  | encryptError
  | success
deriving DecidableEq

/-- Outcome of a login handler. -/
inductive LoginResult where
  | unauthorized
  | forbidden
  | decryptError
  | ok (token : SignedToken) (role : List Nat)
deriving DecidableEq

/-- The email-lookup-key as computed and stored by `Register`,
`AdminRegister` and looked up by `Login`/`AdminLogin`
(`emailHash := req.Email`): the plaintext email itself. -/
def registerLookupKey (email : List Nat) : List Nat :=
  email

/-- The email-lookup-key as computed by `UpdateUserProfile`'s uniqueness
check and update (`utils.HashEmail(req.Email)`). -/
def updateProfileLookupKey (email : List Nat) : List Nat :=
  HashEmail email

/-- `handlers.Register`: duplicate check on the lookup key, bcrypt hash,
email encryption, role from the optional request field (`"admin"` is
honoured, anything else falls back to `"user"`), then insert. -/
def Register (E : List Nat → List Nat → List Nat) (encKey : List Nat)
    (db : Store) (req : RegisterRequest) (newId salt : Nat) (iv : List Nat)
    (now : Int) : RegisterResult × Store :=
  match findByEmailHash db (registerLookupKey req.email) with
  | some _ => (.conflict, db)
  | none =>
      match Encrypt E req.email encKey iv with
      | .error _ => (.encryptError, db)
      | .ok enc =>
          (.success, db ++ [⟨newId, registerLookupKey req.email, enc,
            bcryptGenerate req.password salt,
            if req.role == ascii "admin" then ascii "admin" else ascii "user",
            now, now⟩])

/-- `handlers.AdminRegister`: same pipeline with role fixed to
`"admin"`. -/
def AdminRegister (E : List Nat → List Nat → List Nat) (encKey : List Nat)
    (db : Store) (req : LoginRequest) (newId salt : Nat) (iv : List Nat)
    (now : Int) : RegisterResult × Store :=
  match findByEmailHash db (registerLookupKey req.email) with
  | some _ => (.conflict, db)
  | none =>
      match Encrypt E req.email encKey iv with
      | .error _ => (.encryptError, db)
      | .ok enc =>
          (.success, db ++ [⟨newId, registerLookupKey req.email, enc,
            bcryptGenerate req.password salt, ascii "admin", now, now⟩])

/-- `handlers.Login`: lookup, password check, email decryption, token
issuance. -/
def Login (E : List Nat → List Nat → List Nat) (encKey secret : List Nat)
    (db : Store) (req : LoginRequest) (now : Int) : LoginResult :=
  match findByEmailHash db (registerLookupKey req.email) with
  | none => .unauthorized
  | some user =>
      if bcryptCompare user.password req.password then
        match Decrypt E user.email encKey with
        | .error _ => .decryptError
        | .ok em => .ok (issueToken user.id em user.role secret now) user.role
      else .unauthorized

/-- `handlers.AdminLogin`: lookup, then the admin-role check, then the
password check, then decryption and token issuance — the role check
precedes the password check in the source. -/
def AdminLogin (E : List Nat → List Nat → List Nat) (encKey secret : List Nat)
    (db : Store) (req : LoginRequest) (now : Int) : LoginResult :=
  match findByEmailHash db (registerLookupKey req.email) with
  | none => .unauthorized
  | some user =>
      if user.role ≠ ascii "admin" then .forbidden
      else if bcryptCompare user.password req.password then
        match Decrypt E user.email encKey with
        | .error _ => .decryptError
        | .ok em => .ok (issueToken user.id em user.role secret now) user.role
      else .unauthorized

/-! ## The access-control gate (middleware)

`JWTAuthMiddleware` as in `microservices/user-service/middleware/auth.go`
(the admin-service copy composed before `AdminOnlyMiddleware` in its
`main.go` is not among the sources; per spec §4.4 it attaches the claims —
identity, email, role — to the request context exactly as the user-service
copy in the sources does).  `jwt.Parse` with the configured secret enters
as the abstract parameter `verify`.  The monolith copy
(`middleware/auth.go`) stores the whole claims object under a single
context key instead. -/

/-- The request-scoped context values the middlewares may attach. -/
structure ReqContext where
  claims : Option JwtClaims
  userID : Option Nat
  email : Option (List Nat)
  role : Option (List Nat)
  encryptionKey : Option (List Nat)

/-- The empty inbound request context. -/
def ReqContext.empty : ReqContext :=
  ⟨none, none, none, none, none⟩

/-- What a request produces: an HTTP status and whether the innermost
handler ran. -/
structure GateOutcome where
  status : Nat
  handlerRan : Bool
deriving DecidableEq

/-- `strings.TrimPrefix(authHeader, "Bearer ")`: strips the prefix when
present, otherwise returns the input unchanged. -/
def trimBearer (h : List Nat) : List Nat :=
  if (ascii "Bearer ").isPrefixOf h then h.drop (ascii "Bearer ").length else h

/-- `middleware.JWTAuthMiddleware` (user-service / admin-service shape):
empty header means 401, failed verification means 401, otherwise the
claims and the encryption key are attached to the context and the wrapped
handler runs. -/
def jwtAuthMiddleware (verify : List Nat → Option JwtClaims)
    (encKey : List Nat) (next : ReqContext → GateOutcome)
    (authHeader : List Nat) : GateOutcome :=
  if authHeader = [] then ⟨401, false⟩
  else
    match verify (trimBearer authHeader) with
    | none => ⟨401, false⟩
    | some c =>
        next ⟨none, some c.userID, some c.email, some c.role, some encKey⟩

/-- `middleware.JWTAuthMiddleware` (monolith shape, `middleware/auth.go`):
identical gate logic, but the whole claims value is stored under the
single `claims` context key. -/
def jwtAuthMiddlewareMono (verify : List Nat → Option JwtClaims)
    (next : ReqContext → GateOutcome) (authHeader : List Nat) : GateOutcome :=
  if authHeader = [] then ⟨401, false⟩
  else
    match verify (trimBearer authHeader) with
    | none => ⟨401, false⟩
    | some c => next ⟨some c, none, none, none, none⟩

/-- `middleware.AdminOnlyMiddleware`: a missing or non-`"admin"` role in
the context means 403, otherwise the wrapped handler runs. -/
def adminOnlyMiddleware (next : ReqContext → GateOutcome)
    (ctx : ReqContext) : GateOutcome :=
  match ctx.role with
  | none => ⟨403, false⟩
  | some r => if r ≠ ascii "admin" then ⟨403, false⟩ else next ctx

/-- The admin-service chain (`admin-service/main.go`):
`r.Use(JWTAuthMiddleware)` then `r.Use(AdminOnlyMiddleware)`. -/
def adminGate (verify : List Nat → Option JwtClaims) (encKey : List Nat)
    (next : ReqContext → GateOutcome) (authHeader : List Nat) : GateOutcome :=
  jwtAuthMiddleware verify encKey (adminOnlyMiddleware next) authHeader

/-! ## Support lemmas for the claims -/

theorem shaBlock_length (hv block : List Nat) : (shaBlock hv block).length = 8 := by
  rfl

theorem shaBlocksGo_length :
    ∀ (fuel : Nat) (hv bs : List Nat), hv.length = 8 →
      (shaBlocksGo fuel hv bs).length = 8 := by
  intro fuel
  induction fuel with
  | zero =>
      intro hv bs h
      cases bs <;> exact h
  | succ f ih =>
      intro hv bs h
      cases bs with
      | nil => exact h
      | cons b bs =>
          rw [shaBlocksGo]
          exact ih _ _ (shaBlock_length hv _)

theorem shaBlocks_length (bs hv : List Nat) (h : hv.length = 8) :
    (shaBlocks hv bs).length = 8 :=
  shaBlocksGo_length bs.length hv bs h

theorem sha256_length (msg : List Nat) : (sha256 msg).length = 32 := by
  unfold sha256
  rw [List.length_flatMap]
  have h8 := shaBlocks_length (shaPad msg)
    [1779033703, 3144134277, 1013904242, 2773480762, 1359893119,
     2600822924, 528734635, 1541459225] rfl
  have : ∀ l : List Nat, (l.map (List.length ∘ be32)).sum = 4 * l.length := by
    intro l
    induction l with
    | nil => simp
    | cons x xs ih =>
        simp only [List.map_cons, List.sum_cons, ih, Function.comp]
        simp [be32]
        omega
  rw [this, h8]

theorem HashEmail_length (email : List Nat) : (HashEmail email).length = 44 := by
  unfold HashEmail
  rw [b64Encode_length, sha256_length]

/-! ## The claims -/

/-- C7: for every key whose byte length is not exactly 32, both `Encrypt`
and `Decrypt` return the key-length error (and, being `Except.error`, no
partial ciphertext or plaintext — the Go functions return the empty
string on this path). -/
theorem invalid_key_length_errors (E : List Nat → List Nat → List Nat)
    (pt key iv ct : List Nat) (hk : key.length ≠ 32) :
    Encrypt E pt key iv = .error (ascii "encryption key must be 32 bytes") ∧
    Decrypt E ct key = .error (ascii "encryption key must be 32 bytes") := by
  constructor
  · unfold Encrypt
    rw [if_pos hk]
  · unfold Decrypt
    rw [if_pos hk]

/-- C7 witness: a 5-byte key makes both functions fail. -/
theorem invalid_key_length_errors_witness :
    Encrypt aesBlock (ascii "user@example.com") (ascii "short") (List.range 16) =
      .error (ascii "encryption key must be 32 bytes") ∧
    Decrypt aesBlock (ascii "token") (ascii "short") =
      .error (ascii "encryption key must be 32 bytes") :=
  invalid_key_length_errors aesBlock (ascii "user@example.com") (ascii "short")
    (List.range 16) (ascii "token") (by decide)

/-- C8: a registration request whose email-lookup-key matches a stored
record fails with Conflict and leaves the store unchanged — no record is
inserted. -/
theorem register_duplicate_conflict (E : List Nat → List Nat → List Nat)
    (encKey : List Nat) (db : Store) (req : RegisterRequest)
    (newId salt : Nat) (iv : List Nat) (now : Int) (user : User)
    (hfound : findByEmailHash db (registerLookupKey req.email) = some user) :
    Register E encKey db req newId salt iv now = (.conflict, db) := by
  unfold Register
  rw [hfound]

/-- C8 witness: registering `a@x.com` twice — the second call returns
Conflict with the store unchanged. -/
theorem register_duplicate_conflict_witness :
    Register aesBlock (ascii "12345678901234567890123456789012")
      [⟨1, ascii "a@x.com", [], bcryptGenerate (ascii "pw123456") 1,
        ascii "user", 0, 0⟩]
      ⟨ascii "a@x.com", ascii "otherpw", []⟩ 2 9 (List.range 16) 5 =
      (.conflict,
        [⟨1, ascii "a@x.com", [], bcryptGenerate (ascii "pw123456") 1,
          ascii "user", 0, 0⟩]) :=
  register_duplicate_conflict aesBlock (ascii "12345678901234567890123456789012")
    [⟨1, ascii "a@x.com", [], bcryptGenerate (ascii "pw123456") 1,
      ascii "user", 0, 0⟩]
    ⟨ascii "a@x.com", ascii "otherpw", []⟩ 2 9 (List.range 16) 5
    ⟨1, ascii "a@x.com", [], bcryptGenerate (ascii "pw123456") 1,
      ascii "user", 0, 0⟩ (by rfl)

/-- C3 counterexample: in `AdminLogin`, a request whose email matches a
stored non-admin record and whose password does **not** match the stored
hash is answered Forbidden, not Unauthorized — the claim that a password
mismatch always yields Unauthorized is false on the code. -/
theorem admin_login_wrong_password_forbidden :
    bcryptCompare (bcryptGenerate (ascii "rightpw") 5) (ascii "wrongpw") = false ∧
    AdminLogin aesBlock (ascii "12345678901234567890123456789012")
      (ascii "your-secret-key")
      [⟨1, ascii "a@x.com", [], bcryptGenerate (ascii "rightpw") 5,
        ascii "user", 0, 0⟩]
      ⟨ascii "a@x.com", ascii "wrongpw"⟩ 0 = .forbidden ∧
    LoginResult.forbidden ≠ LoginResult.unauthorized :=
  ⟨rfl, rfl, by decide⟩

/-- C3 (amended): in `AdminLogin` the admin-role check precedes password
verification: a matching non-admin record fails Forbidden regardless of
the password, and only for an admin record does a password mismatch yield
Unauthorized. -/
theorem admin_login_role_check_precedes_password
    (E : List Nat → List Nat → List Nat) (encKey secret : List Nat)
    (db : Store) (req : LoginRequest) (now : Int) (user : User)
    (hfound : findByEmailHash db (registerLookupKey req.email) = some user) :
    (user.role ≠ ascii "admin" →
      AdminLogin E encKey secret db req now = .forbidden) ∧
    (user.role = ascii "admin" →
      bcryptCompare user.password req.password = false →
      AdminLogin E encKey secret db req now = .unauthorized) := by
  constructor
  · intro hrole
    unfold AdminLogin
    rw [hfound]
    show (if user.role ≠ ascii "admin" then LoginResult.forbidden
      else if bcryptCompare user.password req.password = true then
        match Decrypt E user.email encKey with
        | Except.error _ => LoginResult.decryptError
        | Except.ok em =>
            LoginResult.ok (issueToken user.id em user.role secret now) user.role
      else LoginResult.unauthorized) = LoginResult.forbidden
    rw [if_pos hrole]
  · intro hrole hpw
    unfold AdminLogin
    rw [hfound]
    show (if user.role ≠ ascii "admin" then LoginResult.forbidden
      else if bcryptCompare user.password req.password = true then
        match Decrypt E user.email encKey with
        | Except.error _ => LoginResult.decryptError
        | Except.ok em =>
            LoginResult.ok (issueToken user.id em user.role secret now) user.role
      else LoginResult.unauthorized) = LoginResult.unauthorized
    rw [if_neg (not_not_intro hrole), hpw]
    simp

/-- C3 witness: both amended branches at concrete inputs. -/
theorem admin_login_role_check_precedes_password_witness :
    AdminLogin aesBlock (ascii "k") (ascii "s")
      [⟨1, ascii "a@x.com", [], bcryptGenerate (ascii "pw") 5, ascii "user", 0, 0⟩]
      ⟨ascii "a@x.com", ascii "pw"⟩ 0 = .forbidden ∧
    AdminLogin aesBlock (ascii "k") (ascii "s")
      [⟨1, ascii "b@x.com", [], bcryptGenerate (ascii "pw") 5, ascii "admin", 0, 0⟩]
      ⟨ascii "b@x.com", ascii "wrong"⟩ 0 = .unauthorized :=
  ⟨(admin_login_role_check_precedes_password aesBlock (ascii "k") (ascii "s")
      [⟨1, ascii "a@x.com", [], bcryptGenerate (ascii "pw") 5, ascii "user", 0, 0⟩]
      ⟨ascii "a@x.com", ascii "pw"⟩ 0
      ⟨1, ascii "a@x.com", [], bcryptGenerate (ascii "pw") 5, ascii "user", 0, 0⟩
      (by rfl)).1 (by decide),
   (admin_login_role_check_precedes_password aesBlock (ascii "k") (ascii "s")
      [⟨1, ascii "b@x.com", [], bcryptGenerate (ascii "pw") 5, ascii "admin", 0, 0⟩]
      ⟨ascii "b@x.com", ascii "wrong"⟩ 0
      ⟨1, ascii "b@x.com", [], bcryptGenerate (ascii "pw") 5, ascii "admin", 0, 0⟩
      (by rfl)).2 (by rfl) (by rfl)⟩

set_option maxRecDepth 20000 in
/-- C4 counterexample: the lookup key stored by registration (the
plaintext email) differs from the lookup key computed by the
profile-update uniqueness check (`HashEmail`) on the concrete email
`a@x.com` — the claim that every code path derives the same key is false
on the code. -/
theorem lookup_key_disagree_at_concrete_email :
    registerLookupKey (ascii "a@x.com") ≠
      updateProfileLookupKey (ascii "a@x.com") := by
  decide

/-- C4 (amended): registration and the login paths use the plaintext
email as the lookup key, while the profile-update path uses `HashEmail`
(base64 of the 32-byte SHA-256 digest, always 44 characters); the two
derivations disagree on every email whose length is not 44, so a record
stored by registration under email `e` never matches the profile-update
uniqueness filter for the same `e`. -/
theorem lookup_key_derivations_disagree (e : List Nat) (he : e.length ≠ 44) :
    registerLookupKey e ≠ updateProfileLookupKey e ∧
    (∀ u : User, u.emailHash = registerLookupKey e →
      (u.emailHash == updateProfileLookupKey e) = false) := by
  have hlen : (updateProfileLookupKey e).length = 44 := HashEmail_length e
  have hne : registerLookupKey e ≠ updateProfileLookupKey e := by
    intro hEq
    exact he (by rw [show e = updateProfileLookupKey e from hEq]; exact hlen)
  refine ⟨hne, ?_⟩
  intro u hu
  rw [beq_eq_false_iff_ne, hu]
  exact hne

/-- C4 witness: the amended statement at `user@example.com`. -/
theorem lookup_key_derivations_disagree_witness :
    registerLookupKey (ascii "user@example.com") ≠
      updateProfileLookupKey (ascii "user@example.com") :=
  (lookup_key_derivations_disagree (ascii "user@example.com") (by decide)).1

/-- C10: the gate does not require the `Bearer ` prefix: for a nonempty
header that does not itself start with `Bearer ` (true of every JWT
compact serialisation, whose alphabet has no space), the middleware
processes the bare token exactly like the prefixed one, in both the
user-service and the monolith variant. -/
theorem bearer_prefix_optional (verify : List Nat → Option JwtClaims)
    (encKey : List Nat) (next nextM : ReqContext → GateOutcome) (t : List Nat)
    (hne : t ≠ []) (hpfx : (ascii "Bearer ").isPrefixOf t = false) :
    jwtAuthMiddleware verify encKey next (ascii "Bearer " ++ t) =
      jwtAuthMiddleware verify encKey next t ∧
    jwtAuthMiddlewareMono verify nextM (ascii "Bearer " ++ t) =
      jwtAuthMiddlewareMono verify nextM t := by
  have htrim1 : trimBearer (ascii "Bearer " ++ t) = t := by
    unfold trimBearer
    rw [if_pos (List.isPrefixOf_iff_prefix.mpr (List.prefix_append _ _))]
    exact List.drop_left' rfl
  have htrim2 : trimBearer t = t := by
    unfold trimBearer
    rw [if_neg]
    simp [hpfx]
  have hbne : ascii "Bearer " ++ t ≠ [] :=
    List.append_ne_nil_of_left_ne_nil (by decide) t
  constructor
  · unfold jwtAuthMiddleware
    rw [if_neg hbne, if_neg hne, htrim1, htrim2]
  · unfold jwtAuthMiddlewareMono
    rw [if_neg hbne, if_neg hne, htrim1, htrim2]

/-- C10 witness: header `A` and header `Bearer A` produce the same
outcome. -/
theorem bearer_prefix_optional_witness :
    jwtAuthMiddleware (fun _ => none) (ascii "k") (fun _ => ⟨200, true⟩)
      (ascii "Bearer " ++ [65]) =
      jwtAuthMiddleware (fun _ => none) (ascii "k") (fun _ => ⟨200, true⟩) [65] ∧
    jwtAuthMiddlewareMono (fun _ => none) (fun _ => ⟨200, true⟩)
      (ascii "Bearer " ++ [65]) =
      jwtAuthMiddlewareMono (fun _ => none) (fun _ => ⟨200, true⟩) [65] :=
  bearer_prefix_optional (fun _ => none) (ascii "k") (fun _ => ⟨200, true⟩)
    (fun _ => ⟨200, true⟩) [65] (by decide) (by decide)

/-- C1 code-bug evidence: a registration through the regular entry point
whose body carries `role: "admin"` succeeds and persists a record with
role `admin` — the regular entry point honours the caller-supplied role
instead of forcing `user`. -/
theorem register_honours_request_admin_role :
    (Register aesBlock (ascii "12345678901234567890123456789012") []
      ⟨ascii "a@x.com", ascii "pw123456", ascii "admin"⟩ 1 7 (List.range 16)
      0).1 = RegisterResult.success ∧
    ((Register aesBlock (ascii "12345678901234567890123456789012") []
      ⟨ascii "a@x.com", ascii "pw123456", ascii "admin"⟩ 1 7 (List.range 16)
      0).2.map User.role) = [ascii "admin"] :=
  ⟨rfl, rfl⟩

set_option maxRecDepth 40000 in
/-- C2 counterexample: a token encrypted under one 32-byte key, decrypted
under a different 32-byte key, decrypts *successfully* to a string that
is not the original plaintext — `Decrypt` does not fail under a wrong
key. -/
theorem decrypt_wrong_key_returns_ok :
    (Decrypt aesBlock ((Encrypt aesBlock (ascii "user@example.com")
        (ascii "12345678901234567890123456789012")
        (List.range 16)).toOption.getD [])
      (ascii "abcdefghijklmnopqrstuvwxyz789012")).toOption.isSome = true ∧
    (Decrypt aesBlock ((Encrypt aesBlock (ascii "user@example.com")
        (ascii "12345678901234567890123456789012")
        (List.range 16)).toOption.getD [])
      (ascii "abcdefghijklmnopqrstuvwxyz789012")).toOption ≠
      some (ascii "user@example.com") ∧
    (Decrypt aesBlock ((Encrypt aesBlock (ascii "user@example.com")
        (ascii "12345678901234567890123456789012")
        (List.range 16)).toOption.getD [])
      (ascii "12345678901234567890123456789012")).toOption =
      some (ascii "user@example.com") := by
  refine ⟨by decide, by decide, by decide⟩

/-- C2 (amended): `Decrypt`'s success is characterised by well-formedness
alone — a 32-byte key and a base64 token decoding to at least one block;
it is independent of whether the key matches the one used to encrypt, so
decryption under a wrong 32-byte key still succeeds (with corrupted
output) rather than failing. -/
theorem decrypt_success_characterisation (E : List Nat → List Nat → List Nat)
    (tok key : List Nat) :
    (∃ s, Decrypt E tok key = .ok s) ↔
      (key.length = 32 ∧ ∃ ct, b64Decode tok = some ct ∧ 16 ≤ ct.length) :=
  Decrypt_ok_iff E tok key

/-- C5: for every 32-byte key and every plaintext, decrypting the token
produced by `Encrypt` (with the fresh random IV an explicit input) under
the same key returns exactly the plaintext; the block cipher enters as a
parameter satisfying what AES-256 satisfies (16-byte output blocks of
bytes). -/
theorem encrypt_decrypt_roundtrip (E : List Nat → List Nat → List Nat)
    (key iv pt tok : List Nat) (hkey : key.length = 32) (hiv : iv.length = 16)
    (hE : ∀ b, (E key b).length = 16) (hEb : ∀ b, allBytes (E key b))
    (hivb : allBytes iv) (hptb : allBytes pt)
    (henc : Encrypt E pt key iv = .ok tok) :
    Decrypt E tok key = .ok pt :=
  Decrypt_Encrypt E key iv pt hkey hiv hE hEb hivb hptb tok henc

set_option maxRecDepth 40000 in
/-- C5 witness: the round trip through real AES-256 at a concrete key,
IV and plaintext. -/
theorem encrypt_decrypt_roundtrip_witness :
    Decrypt aesBlock ((Encrypt aesBlock (ascii "user@example.com")
        (ascii "12345678901234567890123456789012")
        (List.range 16)).toOption.getD [])
      (ascii "12345678901234567890123456789012") =
      .ok (ascii "user@example.com") :=
  encrypt_decrypt_roundtrip aesBlock
    (ascii "12345678901234567890123456789012") (List.range 16)
    (ascii "user@example.com")
    ((Encrypt aesBlock (ascii "user@example.com")
      (ascii "12345678901234567890123456789012")
      (List.range 16)).toOption.getD [])
    (by decide) (by decide)
    (fun b => aesBlock_length (ascii "12345678901234567890123456789012") b)
    (fun b => aesBlock_bytes (ascii "12345678901234567890123456789012") b)
    (by decide) (by decide) (by rfl)

/-- C6: through the composed admin gate (JWT middleware wrapping the
admin-only middleware): an empty authorization header yields 401 with no
downstream stage running; a header whose token fails verification yields
401 with no downstream stage running (the outcome is the same constant
for every wrapped handler, so the role check is never reached); when
verification succeeds the gate hands exactly the verified claims to the
role stage; and a verified token whose role is not `admin` yields 403
with the handler not running. -/
theorem admin_gate_auth_before_role (verify : List Nat → Option JwtClaims)
    (encKey authHeader : List Nat) :
    (∀ next, authHeader = [] →
      adminGate verify encKey next authHeader = ⟨401, false⟩) ∧
    (∀ next, verify (trimBearer authHeader) = none →
      adminGate verify encKey next authHeader = ⟨401, false⟩) ∧
    (∀ next c, authHeader ≠ [] → verify (trimBearer authHeader) = some c →
      adminGate verify encKey next authHeader = adminOnlyMiddleware next
        ⟨none, some c.userID, some c.email, some c.role, some encKey⟩) ∧
    (∀ next c, authHeader ≠ [] → verify (trimBearer authHeader) = some c →
      c.role ≠ ascii "admin" →
      adminGate verify encKey next authHeader = ⟨403, false⟩) := by
  refine ⟨?_, ?_, ?_, ?_⟩
  · intro next h
    unfold adminGate jwtAuthMiddleware
    rw [if_pos h]
  · intro next hv
    unfold adminGate jwtAuthMiddleware
    by_cases hh : authHeader = []
    · rw [if_pos hh]
    · rw [if_neg hh, hv]
  · intro next c hh hv
    unfold adminGate jwtAuthMiddleware
    rw [if_neg hh, hv]
  · intro next c hh hv hrole
    unfold adminGate jwtAuthMiddleware
    rw [if_neg hh, hv]
    show adminOnlyMiddleware next
      ⟨none, some c.userID, some c.email, some c.role, some encKey⟩ = ⟨403, false⟩
    unfold adminOnlyMiddleware
    show (if c.role ≠ ascii "admin" then (⟨403, false⟩ : GateOutcome)
      else next ⟨none, some c.userID, some c.email, some c.role, some encKey⟩) =
      ⟨403, false⟩
    rw [if_pos hrole]

/-- C6 witness: the three gate outcomes at concrete headers, with a
verifier accepting exactly the token `A` as a non-admin identity and a
handler that would report 200. -/
theorem admin_gate_auth_before_role_witness :
    adminGate (fun t => if t = [65] then some ⟨1, ascii "e", ascii "user", 100⟩
        else none) (ascii "k") (fun _ => ⟨200, true⟩) [] = ⟨401, false⟩ ∧
    adminGate (fun t => if t = [65] then some ⟨1, ascii "e", ascii "user", 100⟩
        else none) (ascii "k") (fun _ => ⟨200, true⟩) [66] = ⟨401, false⟩ ∧
    adminGate (fun t => if t = [65] then some ⟨1, ascii "e", ascii "user", 100⟩
        else none) (ascii "k") (fun _ => ⟨200, true⟩) [65] = ⟨403, false⟩ :=
  ⟨(admin_gate_auth_before_role
      (fun t => if t = [65] then some ⟨1, ascii "e", ascii "user", 100⟩ else none)
      (ascii "k") []).1 (fun _ => ⟨200, true⟩) rfl,
   (admin_gate_auth_before_role
      (fun t => if t = [65] then some ⟨1, ascii "e", ascii "user", 100⟩ else none)
      (ascii "k") [66]).2.1 (fun _ => ⟨200, true⟩) (by rfl),
   (admin_gate_auth_before_role
      (fun t => if t = [65] then some ⟨1, ascii "e", ascii "user", 100⟩ else none)
      (ascii "k") [65]).2.2.2 (fun _ => ⟨200, true⟩)
      ⟨1, ascii "e", ascii "user", 100⟩ (by decide) (by rfl) (by decide)⟩

/-- C9: every token issued by a successful `Login` carries an expiration
claim of issuance time plus 24 hours (86400 s); verification (modelled
from the spec as the JWT library's signature-and-expiry check) accepts it
with the issued claims before expiry under the issuing secret, rejects it
from the expiration instant on, rejects it under any other secret, and
its claims carry the stored user's identity and role. -/
theorem login_token_lifecycle (E : List Nat → List Nat → List Nat)
    (encKey secret : List Nat) (db : Store) (req : LoginRequest) (now : Int)
    (tok : SignedToken) (role : List Nat)
    (hlogin : Login E encKey secret db req now = .ok tok role) :
    tok.claims.exp = now + 86400 ∧
    (∀ t : Int, t < now + 86400 → verifyToken tok secret t = some tok.claims) ∧
    (∀ t : Int, now + 86400 ≤ t → verifyToken tok secret t = none) ∧
    (∀ (secret2 : List Nat) (t : Int), secret2 ≠ secret →
      verifyToken tok secret2 t = none) ∧
    (∀ user, findByEmailHash db (registerLookupKey req.email) = some user →
      tok.claims.userID = user.id ∧ tok.claims.role = user.role ∧
        role = user.role) := by
  unfold Login at hlogin
  split at hlogin
  · exact absurd hlogin (by simp)
  · rename_i user hfound
    split at hlogin
    · split at hlogin
      · exact absurd hlogin (by simp)
      · rename_i em hdec
        rw [LoginResult.ok.injEq] at hlogin
        obtain ⟨htok, hrole⟩ := hlogin
        subst htok
        subst hrole
        refine ⟨rfl, ?_, ?_, ?_, ?_⟩
        · intro t ht
          unfold verifyToken
          rw [if_pos ⟨rfl, ht⟩]
        · intro t ht
          unfold verifyToken
          rw [if_neg]
          rintro ⟨-, hlt⟩
          have hlt2 : t < now + 86400 := hlt
          omega
        · intro secret2 t hsec
          unfold verifyToken
          rw [if_neg]
          rintro ⟨hsig, -⟩
          have h2 : secret = secret2 := congrArg Prod.fst hsig
          exact hsec h2.symm
        · intro user2 hfound2
          rw [hfound] at hfound2
          cases hfound2
          exact ⟨rfl, rfl, rfl⟩
    · exact absurd hlogin (by simp)

set_option maxRecDepth 40000 in
/-- C9 witness: a concrete login against a concrete store issues a token
with expiry 87400 = 1000 + 86400 that verifies at 5000, is rejected at
90000, and is rejected under a different secret. -/
theorem login_token_lifecycle_witness :
    verifyToken (issueToken 5 (ascii "a@x.com") (ascii "user")
        (ascii "your-secret-key") 1000) (ascii "your-secret-key") 5000 =
      some ⟨5, ascii "a@x.com", ascii "user", 87400⟩ ∧
    verifyToken (issueToken 5 (ascii "a@x.com") (ascii "user")
        (ascii "your-secret-key") 1000) (ascii "your-secret-key") 90000 = none ∧
    verifyToken (issueToken 5 (ascii "a@x.com") (ascii "user")
        (ascii "your-secret-key") 1000) (ascii "wrong-secret") 5000 = none := by
  have h := login_token_lifecycle aesBlock
    (ascii "12345678901234567890123456789012") (ascii "your-secret-key")
    [⟨5, ascii "a@x.com",
      (Encrypt aesBlock (ascii "a@x.com")
        (ascii "12345678901234567890123456789012")
        (List.range 16)).toOption.getD [],
      bcryptGenerate (ascii "pw123456") 3, ascii "user", 0, 0⟩]
    ⟨ascii "a@x.com", ascii "pw123456"⟩ 1000
    (issueToken 5 (ascii "a@x.com") (ascii "user") (ascii "your-secret-key") 1000)
    (ascii "user") (by rfl)
  exact ⟨(h.2.1 5000 (by omega)).trans (by rfl),
         h.2.2.1 90000 (by omega),
         h.2.2.2.1 (ascii "wrong-secret") 5000 (by decide)⟩
